import Mathlib

/-!
Verification of the balance reconciliation engine and the ledger endpoints of
the Trip Budget Manager backend (src/server/server.js), against its
natural-language specification.

Shallow embedding conventions:
* JavaScript numbers are modelled by JNum := Option Rat. A value some q is the
  exact rational value of a numeric field; none stands for an absent or
  non-numeric field (and for NaN produced by arithmetic on such a field).
  All arithmetic on JNum propagates none, mirroring NaN propagation.
* Math.round is modelled under exact rational arithmetic as rounding to the
  nearest integer with ties toward positive infinity, which is its JavaScript
  semantics; the one concrete input used below is a dyadic rational at which
  IEEE double evaluation is exact, so the model agrees with the source there.
* Id generation for members lacking an id uses Date.now plus a random suffix
  in the source; it is abstracted here as an explicit fresh-id oracle passed
  to recalculateState.
* HTTP handlers are modelled as pure functions returning Except ApiError
  TripData; an error result corresponds to the handler returning an error
  status without writing the data file, so the stored state is unchanged.
-/

namespace TripBudget

/-- JavaScript number field: some q is a numeric value, none an absent or
non-numeric one (NaN under arithmetic). -/
abbrev JNum := Option ℚ

/-- Addition with NaN propagation. -/
def jadd : JNum → JNum → JNum
  | some a, some b => some (a + b)
  | _, _ => none

/-- Subtraction with NaN propagation. -/
def jsub : JNum → JNum → JNum
  | some a, some b => some (a - b)
  | _, _ => none

/-- Math.max(x, 0); Math.max(NaN, 0) is NaN. -/
def jmax0 : JNum → JNum
  | some a => some (max a 0)
  | none => none

/-- Math.round under exact arithmetic: nearest integer, ties toward
positive infinity. -/
def jsRound (q : ℚ) : ℤ := ⌊q + 1/2⌋

/-- Math.round(q * 100) / 100 on a rational. -/
def jround2q (q : ℚ) : ℚ := (jsRound (q * 100) : ℚ) / 100

/-- Math.round(x * 100) / 100 with NaN propagation. -/
def jround2 : JNum → JNum
  | some q => some (jround2q q)
  | none => none

/-- Division of a possibly missing budget by a positive member count. -/
def jdivNat : JNum → Nat → JNum
  | some b, n => some (b / n)
  | none, _ => none

/-- Modelled from the spec: the round2 function as the spec describes it,
rounding to two decimals using round-half-away-from-zero at the cent
boundary.  Declared only to compare with the jround2q used by the source. -/
def specRound2away (q : ℚ) : ℚ :=
  if 0 ≤ q then (⌊q * 100 + 1/2⌋ : ℚ) / 100
  else -((⌊(-q) * 100 + 1/2⌋ : ℚ) / 100)

/-- Member record, restricted to the fields read or written by the modelled
code paths of server.js. -/
structure Member where
  id : String
  customExpected : Bool := false
  customPersonal : Bool := false
  customBalance : Bool := false
  expectedContribution : JNum := none
  personal : JNum := none
  reimbursed : JNum := none
  actualContribution : JNum := none
  expenseShare : JNum := none
  remainingContribution : JNum := none
  balance : JNum := none
  deriving DecidableEq

/-- Expense record: amount models parseFloat of the stored field (none when
the stored value is not numeric); paidBy none models an absent or empty
payer; splitBetween none models an absent or non-array field. -/
structure Expense where
  amount : JNum := none
  paidBy : Option String := none
  splitBetween : Option (List String) := none
  deriving DecidableEq

/-- Pending deletion request. -/
structure DeletionRequest where
  id : String
  memberId : String
  deriving DecidableEq

/-- Trip snapshot, restricted to the fields the modelled code paths touch. -/
structure TripData where
  budget : JNum := none
  members : List Member := []
  expenses : List Expense := []
  pendingDeletions : List DeletionRequest := []
  deriving DecidableEq

/-- In-place mutation of the first list element satisfying p, as done by
Array.prototype.find followed by a field assignment. -/
def updateFirst {α : Type} (p : α → Prop) [DecidablePred p] (f : α → α) :
    List α → List α
  | [] => []
  | a :: l => if p a then f a :: l else a :: updateFirst p f l

/-- Array.prototype.find. -/
def findFirst {α : Type} (p : α → Prop) [DecidablePred p] : List α → Option α
  | [] => none
  | a :: l => if p a then some a else findFirst p l

/-- Array.prototype.findIndex, with -1 modelled as none. -/
def findIdxP {α : Type} (p : α → Prop) [DecidablePred p] : List α → Option Nat
  | [] => none
  | a :: l => if p a then some 0 else (findIdxP p l).map (· + 1)

/-- Array.prototype.splice(i, 1) applied to the first element satisfying p,
as done by findIndex followed by splice. -/
def removeFirst {α : Type} (p : α → Prop) [DecidablePred p] : List α → List α
  | [] => []
  | a :: l => if p a then l else a :: removeFirst p l

/-- Per-member body of the first forEach of recalculateState: id synthesis,
expected contribution, personal reset, and numeric normalization. -/
def initStatOne (freshId : String) (expected : JNum) (m : Member) : Member :=
  let m := if m.id = "" then { m with id := freshId } else m
  let m := if m.customExpected then m
           else { m with expectedContribution := expected }
  let m := if m.customPersonal then m else { m with personal := some 0 }
  { m with reimbursed := some (m.reimbursed.getD 0),
           actualContribution := some (m.actualContribution.getD 0) }

/-- First forEach of recalculateState, carrying the index fed to the
fresh-id oracle. -/
def initStats (fresh : Nat → String) (expected : JNum) :
    Nat → List Member → List Member
  | _, [] => []
  | i, m :: ms => initStatOne (fresh i) expected m ::
      initStats fresh expected (i + 1) ms

/-- Per-member body of the second forEach of recalculateState: expense-share
accumulator reset and a second personal reset. -/
def initShareOne (m : Member) : Member :=
  let m := { m with expenseShare := some 0 }
  if m.customPersonal then m else { m with personal := some 0 }

/-- Legacy interpretation of paidBy when no usable splitBetween exists. -/
def legacySplit (ids : List String) : Option String → List String
  | some p => if p = "all_members" ∨ p = "pool" then ids else [p]
  | none => []

/-- Split set of an expense: an explicit non-empty splitBetween is used
verbatim, otherwise the legacy paidBy interpretation applies. -/
def splitSet (ids : List String) (e : Expense) : List String :=
  match e.splitBetween with
  | some l => if 0 < l.length then l else legacySplit ids e.paidBy
  | none => legacySplit ids e.paidBy

/-- Expense-share accumulation for one member. -/
def addShare (share : ℚ) (m : Member) : Member :=
  { m with expenseShare := jadd m.expenseShare (some share) }

/-- Personal accumulation for the paying member, skipped under the
customPersonal override. -/
def payPersonal (amount : ℚ) (m : Member) : Member :=
  if m.customPersonal then m
  else { m with personal := jadd m.personal (some amount) }

/-- Processing of a single expense inside recalculateState: personal
tracking for the payer, then even split of the amount over the split set. -/
def allocStep (ms : List Member) (e : Expense) : List Member :=
  let amount : ℚ := e.amount.getD 0
  let ms := match e.paidBy with
    | some p =>
        if p = "pool" then ms
        else updateFirst (fun m => m.id = p) (payPersonal amount) ms
    | none => ms
  let split := splitSet (ms.map Member.id) e
  if 0 < split.length then
    let share := amount / split.length
    split.foldl
      (fun acc mid => updateFirst (fun m => m.id = mid) (addShare share) acc)
      ms
  else ms

/-- Finalization pass body: remaining contribution and, without the
customBalance override, the rounded balance. -/
def finalizeOne (m : Member) : Member :=
  let actual : ℚ := m.actualContribution.getD 0
  let remaining := jmax0 (jsub m.expectedContribution (some actual))
  let m := { m with remainingContribution := remaining }
  let netPersonal := jmax0 (jsub m.personal (some (m.reimbursed.getD 0)))
  if m.customBalance then m
  else { m with balance := jround2 (jsub (jadd (some actual) netPersonal) m.expenseShare) }

/-- Per-head expected contribution: budget over member count, or 0 for an
empty member list. -/
def expectedShare (data : TripData) : JNum :=
  if 0 < data.members.length then jdivNat data.budget data.members.length
  else some 0

/-- The reconciliation engine recalculateState of server.js. -/
def recalculateState (fresh : Nat → String) (data : TripData) : TripData :=
  let expected := expectedShare data
  let ms := initStats fresh expected 0 data.members
  let ms := ms.map initShareOne
  let ms := data.expenses.foldl allocStep ms
  let ms := ms.map finalizeOne
  { data with members := ms }

/-- Error outcomes of the modelled handlers. -/
inductive ApiError where
  | notFound
  | forbidden
  | invalid
  deriving DecidableEq

/-- POST /api/members/contribute: amount models parseFloat of the request
amount (none = NaN); on success the full amount is added to
actualContribution and the state is recalculated. -/
def apiMembersContribute (fresh : Nat → String) (data : TripData)
    (id : String) (amount : JNum) (isAdmin : Bool) :
    Except ApiError TripData :=
  match findFirst (fun m => m.id = id) data.members with
  | none => .error .notFound
  | some _ =>
    match amount with
    | none => .error .invalid
    | some contrib =>
      if isAdmin then
        let pay := fun (m : Member) =>
          { m with actualContribution := some (m.actualContribution.getD 0 + contrib) }
        let ms := updateFirst (fun m => m.id = id) pay data.members
        .ok (recalculateState fresh { data with members := ms })
      else .error .forbidden

/-- POST /api/members/refund: subtracts the full refund amount from
actualContribution after validation, then recalculates. -/
def apiMembersRefund (fresh : Nat → String) (data : TripData)
    (id : String) (amount : JNum) : Except ApiError TripData :=
  match findFirst (fun m => m.id = id) data.members with
  | none => .error .notFound
  | some _ =>
    match amount with
    | none => .error .invalid
    | some refundAmount =>
      if refundAmount ≤ 0 then .error .invalid
      else
        let deduct := fun (m : Member) =>
          { m with actualContribution := some (m.actualContribution.getD 0 - refundAmount) }
        let ms := updateFirst (fun m => m.id = id) deduct data.members
        .ok (recalculateState fresh { data with members := ms })

/-- DELETE /api/members/:id with the admin-protection guard. -/
def apiMembersDelete (fresh : Nat → String) (data : TripData) (id : String) :
    Except ApiError TripData :=
  match findIdxP (fun m => m.id = id) data.members with
  | none => .error .notFound
  | some memberIdx =>
    if memberIdx = 0 then .error .forbidden
    else .ok (recalculateState fresh
      { data with members := data.members.eraseIdx memberIdx })

/-- POST /api/members/delete-approve: on approval the target member is
spliced out unless absent or the admin at index 0; the pending request is
always consumed. -/
def apiMembersDeleteApprove (fresh : Nat → String) (data : TripData)
    (reqId : String) (action : String) : Except ApiError TripData :=
  match findFirst (fun r => r.id = reqId) data.pendingDeletions with
  | none => .error .notFound
  | some request =>
    let data1 :=
      if action = "approve" then
        match findIdxP (fun m => m.id = request.memberId) data.members with
        | some memberIndex =>
          if memberIndex = 0 then data
          else recalculateState fresh
            { data with members := data.members.eraseIdx memberIndex }
        | none => data
      else data
    .ok { data1 with pendingDeletions := removeFirst (fun r => r.id = reqId) data1.pendingDeletions }

/-- Constant fresh-id oracle used for concrete evaluations. -/
def fresh0 : Nat → String := fun _ => "gen"

/-- Core relation between an input member and the corresponding member of the
engine output: identity and override flags survive, reimbursed and
actualContribution are normalized, and each override flag freezes its
field. v is the per-head expected contribution of the snapshot. -/
def Rcore (v : JNum) (m0 m : Member) : Prop :=
  (m0.id ≠ "" → m.id = m0.id) ∧
  m.customExpected = m0.customExpected ∧
  m.customPersonal = m0.customPersonal ∧
  m.customBalance = m0.customBalance ∧
  m.reimbursed = some (m0.reimbursed.getD 0) ∧
  m.actualContribution = some (m0.actualContribution.getD 0) ∧
  m.expectedContribution = (if m0.customExpected then m0.expectedContribution else v) ∧
  (m0.customPersonal = true → m.personal = m0.personal) ∧
  (m0.customBalance = true → m.balance = m0.balance)

/-- Equivalence between the working member lists of two engine runs: all
fields agree except remainingContribution, and balance agrees whenever the
customBalance flag is set (otherwise it is overwritten before being read). -/
def EquivMod (a b : Member) : Prop :=
  a.id = b.id ∧
  a.customExpected = b.customExpected ∧
  a.customPersonal = b.customPersonal ∧
  a.customBalance = b.customBalance ∧
  a.expectedContribution = b.expectedContribution ∧
  a.personal = b.personal ∧
  a.reimbursed = b.reimbursed ∧
  a.actualContribution = b.actualContribution ∧
  a.expenseShare = b.expenseShare ∧
  (a.customBalance = true → a.balance = b.balance)

/-! Concrete snapshots used by witnesses and counterexamples. -/

/-- Snapshot for the C1 witness: one member who paid 30 of an expected 100
and fronted a 10 expense that falls back on the single payer. -/
def w1data : TripData :=
  { budget := some 100,
    members := [{ id := "a", actualContribution := some 30 }],
    expenses := [{ amount := some 10, paidBy := some "a" }] }

/-- Engine output member of w1data. -/
def w1out : Member :=
  { id := "a", expectedContribution := some 100, personal := some 10,
    reimbursed := some 0, actualContribution := some 30,
    expenseShare := some 10, remainingContribution := some 70,
    balance := some 30 }

/-- Snapshot producing a negative half-cent balance: a 0.25 expense split
between two members makes each balance -0.125. -/
def cx1data : TripData :=
  { budget := some 0,
    members := [{ id := "a" }, { id := "b" }],
    expenses := [{ amount := some (1/4), splitBetween := some ["a", "b"] }] }

/-- Input member for the C6 witness with every override flag set. -/
def w6in : Member :=
  { id := "a", customExpected := true, customPersonal := true,
    customBalance := true, expectedContribution := some 7,
    personal := some 3, balance := some 42 }

/-- Snapshot for the C6 witness. -/
def w6data : TripData := { budget := some 10, members := [w6in], expenses := [] }

/-- Engine output member of w6data. -/
def w6out : Member :=
  { id := "a", customExpected := true, customPersonal := true,
    customBalance := true, expectedContribution := some 7,
    personal := some 3, reimbursed := some 0, actualContribution := some 0,
    expenseShare := some 0, remainingContribution := some 7,
    balance := some 42 }

/-- Snapshot for the C7 failing input: one member whose expected (and hence
remaining) contribution is 100, about to pay 150. -/
def bug7data : TripData :=
  { budget := some 100, members := [{ id := "m1" }], expenses := [] }

/-- Snapshot with a missing budget for the C9 counterexample. -/
def cx9data : TripData :=
  { budget := none, members := [{ id := "a" }], expenses := [] }

/-- Zero-coercion of a non-numeric expense amount, as parseFloat-or-zero
performs inside the engine. -/
def coerceExpense (e : Expense) : Expense :=
  { e with amount := some (e.amount.getD 0) }

/-- Zero-coercion of missing or non-numeric reimbursed and
actualContribution fields, as the initialization pass performs. -/
def coerceMember (m : Member) : Member :=
  { m with reimbursed := some (m.reimbursed.getD 0),
           actualContribution := some (m.actualContribution.getD 0) }

/-- Snapshot for the C5 witness: budget 30000 over three plain members. -/
def w5data : TripData :=
  { budget := some 30000,
    members := [{ id := "a" }, { id := "b" }, { id := "c" }],
    expenses := [] }

/-- Empty snapshot (all fields defaulted). -/
def emptyTrip : TripData := {}

/-- Projection of a member to its identity and expense-share accumulator. -/
def idShare (m : Member) : String × JNum := (m.id, m.expenseShare)

/-- Member list for the C3 and C4 witnesses. -/
def w34members : List Member :=
  [{ id := "a", expenseShare := some 0 }, { id := "b", expenseShare := some 0 }]

/-- Expense for the C3 witness: 10 split on member a alone. -/
def w3expense : Expense := { amount := some 10, splitBetween := some ["a"] }

/-- Expense for the C4 witness: 10 paid from the pool with no split list. -/
def w4expense : Expense := { amount := some 10, paidBy := some "pool" }

/-- Decides whether a handler outcome is an error response. -/
def isErr : Except ApiError TripData → Bool
  | .error _ => true
  | .ok _ => false

/-- Admin member for the C8 witness. -/
def w8adm : Member := { id := "adm" }

/-- Second member for the C8 witness. -/
def w8b : Member := { id := "b" }

/-- Pending deletion request targeting the admin, for the C8 witness. -/
def w8req : DeletionRequest := { id := "r1", memberId := "adm" }

/-- Snapshot for the C8 witness. -/
def w8data : TripData :=
  { budget := some 0, members := [w8adm, w8b], expenses := [],
    pendingDeletions := [w8req] }

/-- Member for the C10 witness holding an actualContribution of 10. -/
def w10m : Member := { id := "a", actualContribution := some 10 }

/-- Snapshot for the C10 witness and its negative-refund evaluation. -/
def w10data : TripData :=
  { budget := some 0, members := [w10m], expenses := [] }

end TripBudget

namespace TripBudget

open List

theorem length_updateFirst {α : Type} (p : α → Prop) [DecidablePred p] (f : α → α) :
    ∀ l : List α, (updateFirst p f l).length = l.length
  | [] => rfl
  | a :: l => by
      by_cases h : p a <;> simp [updateFirst, h, length_updateFirst p f l]

theorem length_foldl {α β : Type} (step : List α → β → List α)
    (h : ∀ acc b, (step acc b).length = acc.length) :
    ∀ (L : List β) (acc : List α), (L.foldl step acc).length = acc.length
  | [], _ => rfl
  | b :: L, acc => by rw [List.foldl_cons, length_foldl step h L, h]

theorem length_allocPay (e : Expense) (ms : List Member) :
    (match e.paidBy with
      | some p =>
          if p = "pool" then ms
          else updateFirst (fun m => m.id = p) (payPersonal (e.amount.getD 0)) ms
      | none => ms).length = ms.length := by
  cases e.paidBy with
  | none => rfl
  | some p => by_cases hp : p = "pool" <;> simp [hp, length_updateFirst]

theorem length_splitFold (share : ℚ) :
    ∀ (L : List String) (ms : List Member),
      (L.foldl (fun acc mid => updateFirst (fun m => m.id = mid) (addShare share) acc) ms).length
        = ms.length
  | [], _ => rfl
  | mid :: L, ms => by
      rw [List.foldl_cons, length_splitFold share L, length_updateFirst]

theorem length_allocStep (ms : List Member) (e : Expense) :
    (allocStep ms e).length = ms.length := by
  unfold allocStep
  dsimp only
  split
  · exact (length_splitFold _ _ _).trans (length_allocPay e ms)
  · exact length_allocPay e ms

theorem length_initStats (fresh : Nat → String) (v : JNum) :
    ∀ (i : Nat) (ms : List Member), (initStats fresh v i ms).length = ms.length
  | _, [] => rfl
  | i, m :: ms => by simp [initStats, length_initStats fresh v (i + 1) ms]

theorem length_recalc (fresh : Nat → String) (data : TripData) :
    (recalculateState fresh data).members.length = data.members.length := by
  simp [recalculateState, length_foldl allocStep length_allocStep,
    length_initStats]

theorem forall₂_map_right {α β : Type} {R : α → β → Prop} {g : β → β}
    (hg : ∀ a b, R a b → R a (g b)) :
    ∀ {as : List α} {bs : List β}, Forall₂ R as bs → Forall₂ R as (bs.map g) := by
  intro as bs h
  induction h with
  | nil => exact .nil
  | cons hab _ ih => exact .cons (hg _ _ hab) ih

theorem forall₂_updateFirst_right {α β : Type} {R : α → β → Prop}
    {p : β → Prop} [DecidablePred p] {f : β → β}
    (hf : ∀ a b, R a b → R a (f b)) :
    ∀ {as : List α} {bs : List β}, Forall₂ R as bs → Forall₂ R as (updateFirst p f bs) := by
  intro as bs h
  induction h with
  | nil => exact .nil
  | cons hab hrest ih =>
      rename_i a b as' bs'
      by_cases hb : p b
      · simpa [updateFirst, hb] using Forall₂.cons (hf _ _ hab) hrest
      · simpa [updateFirst, hb] using Forall₂.cons hab ih

theorem forall₂_foldl_right {α β γ : Type} {R : α → γ → Prop}
    {step : List γ → β → List γ}
    (h : ∀ (acc : List γ) (b : β) (as : List α), Forall₂ R as acc → Forall₂ R as (step acc b)) :
    ∀ (L : List β) {as : List α} {acc : List γ},
      Forall₂ R as acc → Forall₂ R as (L.foldl step acc)
  | [], _, _, hacc => hacc
  | b :: L, as, acc, hacc =>
      forall₂_foldl_right h L (h acc b as hacc)

theorem forall₂_map_both {α β : Type} {R : α → α → Prop} {S : β → β → Prop}
    {f g : α → β} (h : ∀ a b, R a b → S (f a) (g b)) :
    ∀ {as bs : List α}, Forall₂ R as bs → Forall₂ S (as.map f) (bs.map g) := by
  intro as bs hab
  induction hab with
  | nil => exact .nil
  | cons hab _ ih => exact .cons (h _ _ hab) ih

theorem forall₂_updateFirst_both {α : Type} {R : α → α → Prop}
    {p q : α → Prop} [DecidablePred p] [DecidablePred q] {f g : α → α}
    (hpq : ∀ a b, R a b → (p a ↔ q b)) (hfg : ∀ a b, R a b → R (f a) (g b)) :
    ∀ {as bs : List α}, Forall₂ R as bs → Forall₂ R (updateFirst p f as) (updateFirst q g bs) := by
  intro as bs h
  induction h with
  | nil => exact .nil
  | cons hab hrest ih =>
      rename_i a b as' bs'
      by_cases ha : p a
      · have hb : q b := (hpq a b hab).mp ha
        simpa [updateFirst, ha, hb] using Forall₂.cons (hfg _ _ hab) hrest
      · have hb : ¬ q b := fun hqb => ha ((hpq a b hab).mpr hqb)
        simpa [updateFirst, ha, hb] using Forall₂.cons hab ih

theorem forall₂_foldl_both {α β : Type} {R : α → α → Prop}
    {step : List α → β → List α}
    (h : ∀ (b : β) (as bs : List α), Forall₂ R as bs → Forall₂ R (step as b) (step bs b)) :
    ∀ (L : List β) {as bs : List α},
      Forall₂ R as bs → Forall₂ R (L.foldl step as) (L.foldl step bs)
  | [], _, _, hab => hab
  | b :: L, as, bs, hab =>
      forall₂_foldl_both h L (h b as bs hab)

theorem forall₂_map_eq {α β : Type} {R : α → α → Prop} {f : α → β}
    (h : ∀ a b, R a b → f a = f b) :
    ∀ {as bs : List α}, Forall₂ R as bs → as.map f = bs.map f := by
  intro as bs hab
  induction hab with
  | nil => rfl
  | cons hab _ ih => simp [h _ _ hab, ih]

theorem forall₂_eq {α : Type} {R : α → α → Prop}
    (h : ∀ a b, R a b → a = b) :
    ∀ {as bs : List α}, Forall₂ R as bs → as = bs := by
  intro as bs hab
  induction hab with
  | nil => rfl
  | cons hab _ ih => simp [h _ _ hab, ih]

theorem forall₂_getElem? {α β : Type} {R : α → β → Prop} :
    ∀ {as : List α} {bs : List β} {i : Nat} {a : α} {b : β},
      Forall₂ R as bs → as[i]? = some a → bs[i]? = some b → R a b := by
  intro as bs i a b h
  induction h generalizing i with
  | nil => intro h1; simp at h1
  | cons hab _ ih =>
      intro h1 h2
      cases i with
      | zero =>
          simp at h1 h2
          subst h1; subst h2; exact hab
      | succ j =>
          simp at h1 h2
          exact ih h1 h2

theorem forall₂_initStats_both {R S : Member → Member → Prop}
    {fresh : Nat → String} {v : JNum}
    (h : ∀ j a b, R a b → S (initStatOne (fresh j) v a) (initStatOne (fresh j) v b)) :
    ∀ (i : Nat) {as bs : List Member},
      Forall₂ R as bs → Forall₂ S (initStats fresh v i as) (initStats fresh v i bs) := by
  intro i as bs hab
  induction hab generalizing i with
  | nil => exact .nil
  | cons hab _ ih => exact .cons (h i _ _ hab) (ih (i + 1))

theorem forall₂_initStats_right {R : Member → Member → Prop}
    {fresh : Nat → String} {v : JNum}
    (h : ∀ j a, R a (initStatOne (fresh j) v a)) :
    ∀ (i : Nat) (as : List Member), Forall₂ R as (initStats fresh v i as)
  | _, [] => .nil
  | i, a :: as => .cons (h i a) (forall₂_initStats_right h (i + 1) as)

theorem rcore_initStatOne (v : JNum) (f : String) (a : Member) :
    Rcore v a (initStatOne f v a) := by
  unfold Rcore initStatOne
  by_cases h1 : a.id = "" <;> by_cases h2 : a.customExpected = true <;>
    by_cases h3 : a.customPersonal = true <;> simp_all

theorem rcore_initShareOne {v : JNum} {a b : Member} (h : Rcore v a b) :
    Rcore v a (initShareOne b) := by
  obtain ⟨h1, h2, h3, h4, h5, h6, h7, h8, h9⟩ := h
  unfold initShareOne
  by_cases hcp : b.customPersonal = true <;> simp_all [Rcore]

theorem rcore_payPersonal {v : JNum} {amt : ℚ} {a b : Member} (h : Rcore v a b) :
    Rcore v a (payPersonal amt b) := by
  obtain ⟨h1, h2, h3, h4, h5, h6, h7, h8, h9⟩ := h
  unfold payPersonal
  by_cases hcp : b.customPersonal = true <;> simp_all [Rcore]

theorem rcore_addShare {v : JNum} {sh : ℚ} {a b : Member} (h : Rcore v a b) :
    Rcore v a (addShare sh b) := by
  obtain ⟨h1, h2, h3, h4, h5, h6, h7, h8, h9⟩ := h
  simp_all [Rcore, addShare]

theorem rcore_finalizeOne {v : JNum} {a b : Member} (h : Rcore v a b) :
    Rcore v a (finalizeOne b) := by
  obtain ⟨h1, h2, h3, h4, h5, h6, h7, h8, h9⟩ := h
  unfold finalizeOne
  dsimp only
  by_cases hcb : b.customBalance = true <;> simp_all [Rcore]

theorem rcore_allocStep {v : JNum} (acc : List Member) (e : Expense)
    (as : List Member) (h : Forall₂ (Rcore v) as acc) :
    Forall₂ (Rcore v) as (allocStep acc e) := by
  unfold allocStep
  dsimp only
  have hpay : Forall₂ (Rcore v) as
      (match e.paidBy with
        | some p =>
            if p = "pool" then acc
            else updateFirst (fun m => m.id = p) (payPersonal (e.amount.getD 0)) acc
        | none => acc) := by
    cases e.paidBy with
    | none => exact h
    | some p =>
        by_cases hp : p = "pool"
        · simpa [hp] using h
        · simpa [hp] using
            forall₂_updateFirst_right (fun a b hb => rcore_payPersonal hb) h
  split
  · exact forall₂_foldl_right
      (fun acc' mid as' h' =>
        forall₂_updateFirst_right (fun a b hb => rcore_addShare hb) h') _ hpay
  · exact hpay

theorem rcore_recalc (fresh : Nat → String) (data : TripData) :
    Forall₂ (Rcore (expectedShare data)) data.members
      (recalculateState fresh data).members := by
  unfold recalculateState
  dsimp only
  refine forall₂_map_right (fun a b hb => rcore_finalizeOne hb) ?_
  refine forall₂_foldl_right (fun acc e as h => rcore_allocStep acc e as h)
    data.expenses ?_
  refine forall₂_map_right (fun a b hb => rcore_initShareOne hb) ?_
  exact forall₂_initStats_right (fun j a => rcore_initStatOne _ _ a) 0 data.members

/-- C1 (amended): for every snapshot and every output member whose
customBalance flag is false and whose numeric fields carry values, after
recalculateState the remaining contribution is max(expected - actual, 0) and
the balance is actual + max(personal - reimbursed, 0) - expenseShare rounded
at the cent boundary with ties toward positive infinity (JavaScript
Math.round), the over-reimbursement clamp max(.., 0) included.  The original
claim named round-half-away-from-zero, refuted by
claim_C1_rounding_counterexample. -/
theorem claim_C1_finalization_formula (fresh : Nat → String) (data : TripData)
    (m1 : Member) (hm : m1 ∈ (recalculateState fresh data).members)
    (hcb : m1.customBalance = false)
    (qe qp qr qa qs : ℚ)
    (he : m1.expectedContribution = some qe)
    (hp : m1.personal = some qp)
    (hr : m1.reimbursed = some qr)
    (ha : m1.actualContribution = some qa)
    (hs : m1.expenseShare = some qs) :
    m1.remainingContribution = some (max (qe - qa) 0) ∧
    m1.balance = some (jround2q (qa + max (qp - qr) 0 - qs)) := by
  unfold recalculateState at hm
  dsimp only at hm
  rw [List.mem_map] at hm
  obtain ⟨m, _, hfm⟩ := hm
  subst hfm
  by_cases hb : m.customBalance = true
  · simp [finalizeOne, hb] at hcb
  · simp only [finalizeOne, hb] at he hp hr ha hs ⊢
    simp only [Bool.not_eq_true] at hb
    simp [hb] at he hp hr ha hs ⊢
    simp [he, hp, hr, ha, hs, jmax0, jsub, jadd, jround2]

/-- C1 witness: the formula evaluated on the concrete snapshot w1data. -/
theorem claim_C1_finalization_formula_witness :
    w1out.remainingContribution = some (max ((100:ℚ) - 30) 0) ∧
    w1out.balance = some (jround2q ((30:ℚ) + max ((10:ℚ) - 0) 0 - 10)) :=
  claim_C1_finalization_formula fresh0 w1data w1out
    (by simp [recalculateState, w1data, w1out, expectedShare, jdivNat, initStats,
          initStatOne, initShareOne, allocStep, splitSet, legacySplit, updateFirst,
          addShare, payPersonal, finalizeOne, jadd, jsub, jmax0, jround2, jround2q,
          jsRound, fresh0]; norm_num)
    (by simp [w1out]) 100 10 0 30 10 (by simp [w1out]) (by simp [w1out])
    (by simp [w1out]) (by simp [w1out]) (by simp [w1out])

/-- C1 counterexample: at cx1data each member's computed balance is -0.12
(Math.round ties toward positive infinity), while the round-half-away-from-
zero formula of the claim demands -0.13. -/
theorem claim_C1_rounding_counterexample :
    (recalculateState fresh0 cx1data).members.map Member.balance
        = [some (-(3/25 : ℚ)), some (-(3/25 : ℚ))] ∧
    specRound2away ((0:ℚ) + max ((0:ℚ) - 0) 0 - 1/8) = -(13/100 : ℚ) ∧
    (some (-(3/25 : ℚ)) : JNum) ≠ some (-(13/100 : ℚ)) := by
  refine ⟨?_, ?_, by norm_num⟩
  · simp [recalculateState, cx1data, expectedShare, jdivNat, initStats,
      initStatOne, initShareOne, allocStep, splitSet, legacySplit, updateFirst,
      addShare, payPersonal, finalizeOne, jadd, jsub, jmax0, jround2, jround2q,
      jsRound, fresh0]
    norm_num
  · rw [specRound2away]
    norm_num

/-- C6: each override flag freezes its field: a member whose customBalance,
customExpected or customPersonal flag is set keeps balance,
expectedContribution or personal exactly as in the input snapshot, whatever
the other members, expenses or ledger values. -/
theorem claim_C6_override_freeze (fresh : Nat → String) (data : TripData)
    (i : Nat) (m0 m1 : Member)
    (h0 : data.members[i]? = some m0)
    (h1 : (recalculateState fresh data).members[i]? = some m1) :
    (m0.customBalance = true → m1.balance = m0.balance) ∧
    (m0.customExpected = true → m1.expectedContribution = m0.expectedContribution) ∧
    (m0.customPersonal = true → m1.personal = m0.personal) := by
  have h := forall₂_getElem? (rcore_recalc fresh data) h0 h1
  obtain ⟨_, _, _, _, _, _, h7, h8, h9⟩ := h
  refine ⟨h9, ?_, h8⟩
  intro hce
  simp [h7, hce]

/-- C6 witness: the freeze evaluated on the concrete snapshot w6data. -/
theorem claim_C6_override_freeze_witness :
    (w6in.customBalance = true → w6out.balance = w6in.balance) ∧
    (w6in.customExpected = true → w6out.expectedContribution = w6in.expectedContribution) ∧
    (w6in.customPersonal = true → w6out.personal = w6in.personal) :=
  claim_C6_override_freeze fresh0 w6data 0 w6in w6out
    (by simp [w6data])
    (by simp [recalculateState, w6data, w6in, w6out, expectedShare, jdivNat,
          initStats, initStatOne, initShareOne, allocStep, splitSet, legacySplit,
          updateFirst, addShare, payPersonal, finalizeOne, jadd, jsub, jmax0,
          jround2, jround2q, jsRound, fresh0])

/-- C7: evaluation of the contribute handler at the failing input: the member
expects 100 (remaining 100) and pays 150, yet the handler adds the full 150
to actualContribution and routes nothing into personal, contradicting the
overpayment rule stated by the spec, by the client script's user-facing
message, and implemented by the multi-trip server variant. -/
theorem claim_C7_contribute_adds_full_amount :
    (apiMembersContribute fresh0 bug7data "m1" (some 150) true).toOption.map
        (fun d => d.members.map (fun m =>
          (m.actualContribution, m.personal, m.remainingContribution)))
      = some [(some 150, some 0, some 0)] := by
  simp [apiMembersContribute, bug7data, findFirst, updateFirst, recalculateState,
    expectedShare, jdivNat, initStats, initStatOne, initShareOne, allocStep,
    splitSet, legacySplit, addShare, payPersonal, finalizeOne, jadd, jsub,
    jmax0, jround2, jround2q, jsRound, fresh0]
  refine ⟨_, rfl, ?_⟩
  norm_num [max_def]

/-- C9 counterexample: with a missing budget the engine does not coerce it to
zero: the expected contribution of the sole member of cx9data comes out as
NaN (modelled none), not 0. -/
theorem claim_C9_missing_budget_counterexample :
    (recalculateState fresh0 cx9data).members.map Member.expectedContribution
        = [none] ∧ (none : JNum) ≠ some 0 := by
  constructor
  · simp [recalculateState, cx9data, expectedShare, jdivNat, initStats,
      initStatOne, initShareOne, allocStep, splitSet, legacySplit, updateFirst,
      addShare, payPersonal, finalizeOne, jadd, jsub, jmax0, jround2, jround2q,
      jsRound, fresh0]
  · simp

theorem allocStep_coerce (ms : List Member) (e : Expense) :
    allocStep ms (coerceExpense e) = allocStep ms e := rfl

theorem initStatOne_coerce (f : String) (v : JNum) (m : Member) :
    initStatOne f v (coerceMember m) = initStatOne f v m := by
  unfold initStatOne coerceMember
  by_cases h1 : m.id = "" <;> by_cases h2 : m.customExpected = true <;>
    by_cases h3 : m.customPersonal = true <;> simp [h1, h2, h3]

theorem initStats_coerce (fresh : Nat → String) (v : JNum) :
    ∀ (i : Nat) (ms : List Member),
      initStats fresh v i (ms.map coerceMember) = initStats fresh v i ms
  | _, [] => rfl
  | i, m :: ms => by
      simp [initStats, initStatOne_coerce, initStats_coerce fresh v (i + 1) ms]

/-- C9 (amended): the engine is a total function that degrades instead of
erroring: a non-numeric expense amount is coerced to zero, and missing or
non-numeric reimbursed and actualContribution fields are coerced to zero, so
replacing them by literal zeroes does not change the engine output.  A
missing budget, however, is not coerced: it propagates as NaN through the
expected contributions (claim_C9_missing_budget_counterexample). -/
theorem claim_C9_engine_coercions (fresh : Nat → String) (data : TripData) :
    (recalculateState fresh
        { data with expenses := data.expenses.map coerceExpense }).members
      = (recalculateState fresh data).members ∧
    recalculateState fresh
        { data with members := data.members.map coerceMember }
      = recalculateState fresh data := by
  constructor
  · unfold recalculateState
    dsimp only
    rw [List.foldl_map]
    rfl
  · unfold recalculateState expectedShare
    dsimp only
    rw [List.length_map, initStats_coerce]

theorem forall₂_mem_right {α β : Type} {R : α → β → Prop} :
    ∀ {as : List α} {bs : List β}, Forall₂ R as bs →
      ∀ {b : β}, b ∈ bs → ∃ a ∈ as, R a b := by
  intro as bs h
  induction h with
  | nil => intro b hb; simp at hb
  | cons hab _ ih =>
      intro b hb
      rcases List.mem_cons.mp hb with hb | hb
      · subst hb; exact ⟨_, List.mem_cons_self _ _, hab⟩
      · obtain ⟨a, ha, hr⟩ := ih hb
        exact ⟨a, List.mem_cons_of_mem _ ha, hr⟩

/-- C5: with at least one member and no customExpected override, every
member's expected contribution after recalculateState is budget divided by
the member count, their sum is exactly the budget, and with zero members the
per-head expected share is 0. -/
theorem claim_C5_expected_sum (fresh : Nat → String) (data : TripData) (b : ℚ)
    (hb : data.budget = some b) (hne : data.members ≠ [])
    (hnc : ∀ m ∈ data.members, m.customExpected = false) :
    (∀ m1 ∈ (recalculateState fresh data).members,
        m1.expectedContribution = some (b / data.members.length)) ∧
    ((recalculateState fresh data).members.map
        (fun m => m.expectedContribution.getD 0)).sum = b ∧
    (∀ d0 : TripData, d0.members = [] → expectedShare d0 = some 0) := by
  have hn : 0 < data.members.length := List.length_pos.mpr hne
  have hv : expectedShare data = some (b / data.members.length) := by
    simp [expectedShare, hn, hb, jdivNat]
  have hcore := rcore_recalc fresh data
  have h1 : ∀ m1 ∈ (recalculateState fresh data).members,
      m1.expectedContribution = some (b / data.members.length) := by
    intro m1 hm1
    obtain ⟨m0, hm0, hR⟩ := forall₂_mem_right hcore hm1
    have hflag := hnc m0 hm0
    have hexp := hR.2.2.2.2.2.2.1
    rw [hv] at hexp
    simpa [hflag] using hexp
  refine ⟨h1, ?_, ?_⟩
  · have hall : ∀ x ∈ (recalculateState fresh data).members.map
        (fun m => m.expectedContribution.getD 0), x = b / data.members.length := by
      intro x hx
      rw [List.mem_map] at hx
      obtain ⟨m1, hm1, hx⟩ := hx
      rw [← hx, h1 m1 hm1]
      rfl
    rw [List.sum_eq_card_nsmul _ _ hall, List.length_map, length_recalc,
      nsmul_eq_mul]
    have hnq : (data.members.length : ℚ) ≠ 0 := by
      exact_mod_cast Nat.pos_iff_ne_zero.mp hn
    field_simp
  · intro d0 h0
    simp [expectedShare, h0]

/-- C5 witness: the sum invariant on the concrete snapshot w5data and the
zero-member expected share on the empty snapshot. -/
theorem claim_C5_expected_sum_witness :
    ((recalculateState fresh0 w5data).members.map
        (fun m => m.expectedContribution.getD 0)).sum = 30000 ∧
    expectedShare emptyTrip = some 0 :=
  ⟨(claim_C5_expected_sum fresh0 w5data 30000 (by simp [w5data])
      (by simp [w5data]) (by decide)).2.1,
   (claim_C5_expected_sum fresh0 w5data 30000 (by simp [w5data])
      (by simp [w5data]) (by decide)).2.2 emptyTrip rfl⟩

theorem map_updateFirst_invariant {α γ : Type} {p : α → Prop} [DecidablePred p]
    {f : α → α} {F : α → γ} (hf : ∀ a, F (f a) = F a) :
    ∀ l : List α, (updateFirst p f l).map F = l.map F
  | [] => rfl
  | a :: l => by
      by_cases h : p a <;>
        simp [updateFirst, h, hf, map_updateFirst_invariant hf l]

theorem map_id_updateFirst {p : Member → Prop} [DecidablePred p]
    {f : Member → Member} (hf : ∀ m, (f m).id = m.id) (l : List Member) :
    (updateFirst p f l).map Member.id = l.map Member.id :=
  map_updateFirst_invariant hf l

theorem map_updateFirst_nodup {γ : Type} {f : Member → Member} {x : String}
    {F : Member → γ} (hid : ∀ m, (f m).id = m.id) :
    ∀ l : List Member, (l.map Member.id).Nodup →
      (updateFirst (fun m => m.id = x) f l).map F
        = l.map (fun m => if m.id = x then F (f m) else F m)
  | [], _ => rfl
  | m :: l, hnd => by
      rw [List.map_cons, List.nodup_cons] at hnd
      by_cases h : m.id = x
      · have hrest : ∀ m' ∈ l, ¬ (m'.id = x) := by
          intro m' hm' he
          exact hnd.1 (by rw [← h, ← he] at *; exact List.mem_map_of_mem Member.id hm')
        rw [updateFirst, if_pos h, List.map_cons, List.map_cons, if_pos h]
        exact congrArg _ (List.map_congr_left fun m' hm' => by
          simp [hrest m' hm'])
      · rw [updateFirst, if_neg h, List.map_cons, List.map_cons, if_neg h]
        exact congrArg _ (map_updateFirst_nodup hid l hnd.2)

theorem foldl_addShare_idShare (sh : ℚ) :
    ∀ (L : List String), L.Nodup →
      ∀ (ms : List Member), (ms.map Member.id).Nodup →
        (L.foldl (fun acc mid => updateFirst (fun m => m.id = mid) (addShare sh) acc) ms).map idShare
          = ms.map (fun m =>
              (m.id, if m.id ∈ L then jadd m.expenseShare (some sh) else m.expenseShare))
  | [], _, ms, _ => by simp [idShare]
  | x :: L, hL, ms, hms => by
      rw [List.nodup_cons] at hL
      rw [List.foldl_cons]
      have hid : ∀ m : Member, (addShare sh m).id = m.id := fun m => rfl
      have hms1 : ((updateFirst (fun m => m.id = x) (addShare sh) ms).map Member.id).Nodup := by
        rw [map_id_updateFirst hid]; exact hms
      rw [foldl_addShare_idShare sh L hL.2 _ hms1]
      rw [map_updateFirst_nodup hid ms hms]
      refine List.map_congr_left fun m _ => ?_
      by_cases hmx : m.id = x
      · have hnL : x ∉ L := hL.1
        simp [hmx, hnL, addShare, List.mem_cons]
      · simp [hmx, List.mem_cons]

theorem allocStep_idShare (ms : List Member) (e : Expense)
    (hids : (ms.map Member.id).Nodup)
    (hS : (splitSet (ms.map Member.id) e).Nodup) :
    (allocStep ms e).map idShare
      = ms.map (fun m => (m.id,
          if m.id ∈ splitSet (ms.map Member.id) e
          then jadd m.expenseShare
            (some (e.amount.getD 0 / (splitSet (ms.map Member.id) e).length))
          else m.expenseShare)) := by
  unfold allocStep
  dsimp only
  have hpayid : ∀ m : Member, (payPersonal (e.amount.getD 0) m).id = m.id := by
    intro m; unfold payPersonal; by_cases h : m.customPersonal = true <;> simp [h]
  have hpayshare : ∀ m : Member, idShare (payPersonal (e.amount.getD 0) m) = idShare m := by
    intro m; unfold payPersonal idShare
    by_cases h : m.customPersonal = true <;> simp [h]
  have h1 : (match e.paidBy with
      | some p =>
          if p = "pool" then ms
          else updateFirst (fun m => m.id = p) (payPersonal (e.amount.getD 0)) ms
      | none => ms).map Member.id = ms.map Member.id := by
    cases e.paidBy with
    | none => rfl
    | some p =>
        by_cases hp : p = "pool"
        · simp [hp]
        · simp [hp, map_id_updateFirst hpayid]
  have h2 : (match e.paidBy with
      | some p =>
          if p = "pool" then ms
          else updateFirst (fun m => m.id = p) (payPersonal (e.amount.getD 0)) ms
      | none => ms).map idShare = ms.map idShare := by
    cases e.paidBy with
    | none => rfl
    | some p =>
        by_cases hp : p = "pool"
        · simp [hp]
        · simp [hp, map_updateFirst_invariant hpayshare]
  rw [h1]
  split
  · rw [foldl_addShare_idShare _ _ hS _ (h1 ▸ hids)]
    have hfac : (fun m : Member => (m.id,
        if m.id ∈ splitSet (ms.map Member.id) e
        then jadd m.expenseShare
          (some (e.amount.getD 0 / (splitSet (ms.map Member.id) e).length))
        else m.expenseShare))
      = (fun p : String × JNum => (p.1,
          if p.1 ∈ splitSet (ms.map Member.id) e
          then jadd p.2 (some (e.amount.getD 0 / (splitSet (ms.map Member.id) e).length))
          else p.2)) ∘ idShare := rfl
    rw [hfac, ← List.map_map, ← List.map_map, h2]
  · rename_i hlen
    have hnil : splitSet (ms.map Member.id) e = [] := by
      rw [Nat.pos_iff_ne_zero] at hlen
      simpa [List.length_eq_zero] using not_not.mp (fun hne => hlen (by simpa using hne))
    rw [hnil]
    simpa [idShare] using h2

/-- C3: allocStep is the processing of one expense inside recalculateState
(whose expense pass is the fold of allocStep), so this is the delta a single
expense contributes during recompute: an expense carrying an explicit
non-empty split list S of k distinct member ids adds exactly amount/k to the
expenseShare of each member whose id lies in S and leaves every other
member's expenseShare untouched; k shares of amount/k sum back to the
amount. -/
theorem claim_C3_split_shares (ms : List Member) (e : Expense) (S : List String)
    (hsb : e.splitBetween = some S) (hSne : S ≠ []) (hSnd : S.Nodup)
    (hids : (ms.map Member.id).Nodup) :
    (allocStep ms e).map (fun m => m.expenseShare)
      = ms.map (fun m => if m.id ∈ S
          then jadd m.expenseShare (some (e.amount.getD 0 / S.length))
          else m.expenseShare) ∧
    (S.length : ℚ) * (e.amount.getD 0 / S.length) = e.amount.getD 0 := by
  have hset : splitSet (ms.map Member.id) e = S := by
    simp [splitSet, hsb, List.length_pos.mpr hSne]
  have h := allocStep_idShare ms e hids (by rw [hset]; exact hSnd)
  rw [hset] at h
  constructor
  · have hproj := congrArg (List.map Prod.snd) h
    rw [List.map_map, List.map_map] at hproj
    exact hproj
  · have hq : (S.length : ℚ) ≠ 0 := by
      exact_mod_cast Nat.pos_iff_ne_zero.mp (List.length_pos.mpr hSne)
    rw [← mul_div_assoc]
    exact mul_div_cancel_left₀ _ hq

/-- C3 witness: the split evaluated on two concrete members and an expense
of 10 split on member a alone. -/
theorem claim_C3_split_shares_witness :
    ((allocStep w34members w3expense).map (fun m => m.expenseShare)
      = w34members.map (fun m => if m.id ∈ (["a"] : List String)
          then jadd m.expenseShare
            (some (w3expense.amount.getD 0 / (["a"] : List String).length))
          else m.expenseShare)) ∧
    (((["a"] : List String).length : ℚ)
        * (w3expense.amount.getD 0 / (["a"] : List String).length)
      = w3expense.amount.getD 0) :=
  claim_C3_split_shares w34members w3expense ["a"] rfl (by decide) (by decide)
    (by decide)

/-- C4: for the per-expense step allocStep of recalculateState, without a
usable split list a pool or all_members payer splits the amount evenly over
all current members, a specific payer id makes that single member absorb the
full amount in expenseShare, and with no payer at all the expense allocates
zero expenseShare to everyone (the step is the identity). -/
theorem claim_C4_legacy_split (ms : List Member) (e : Expense)
    (hsb : e.splitBetween = none ∨ e.splitBetween = some [])
    (hids : (ms.map Member.id).Nodup) :
    ((e.paidBy = some "pool" ∨ e.paidBy = some "all_members") →
      (allocStep ms e).map (fun m => m.expenseShare)
        = ms.map (fun m => jadd m.expenseShare (some (e.amount.getD 0 / ms.length)))) ∧
    (∀ p : String, e.paidBy = some p → p ≠ "pool" → p ≠ "all_members" →
      (allocStep ms e).map (fun m => m.expenseShare)
        = ms.map (fun m => if m.id = p
            then jadd m.expenseShare (some (e.amount.getD 0))
            else m.expenseShare)) ∧
    (e.paidBy = none → allocStep ms e = ms) := by
  have hsplitlegacy : ∀ ids : List String, splitSet ids e = legacySplit ids e.paidBy := by
    rcases hsb with h | h <;> intro ids <;> simp [splitSet, h]
  refine ⟨?_, ?_, ?_⟩
  · intro hp
    have hset : splitSet (ms.map Member.id) e = ms.map Member.id := by
      rcases hp with hp | hp <;> simp [hsplitlegacy, legacySplit, hp]
    have h := allocStep_idShare ms e hids (by rw [hset]; exact hids)
    rw [hset] at h
    have hproj := congrArg (List.map Prod.snd) h
    rw [List.map_map, List.map_map] at hproj
    refine hproj.trans (List.map_congr_left fun m hm => ?_)
    have hmem : m.id ∈ ms.map Member.id := List.mem_map_of_mem Member.id hm
    simp only [Function.comp_apply]
    rw [if_pos hmem, List.length_map]
  · intro p hp hp1 hp2
    have hset : splitSet (ms.map Member.id) e = [p] := by
      simp [hsplitlegacy, legacySplit, hp, hp1, hp2]
    have h := allocStep_idShare ms e hids (by rw [hset]; exact List.nodup_singleton p)
    rw [hset] at h
    have hproj := congrArg (List.map Prod.snd) h
    rw [List.map_map, List.map_map] at hproj
    refine hproj.trans (List.map_congr_left fun m hm => ?_)
    simp [List.mem_singleton]
  · intro hp
    unfold allocStep
    dsimp only
    rw [hp]
    have : splitSet (ms.map Member.id) e = [] := by
      simp [hsplitlegacy, legacySplit, hp]
    simp [this]

/-- C4 witness: the pool fallback evaluated on two concrete members and a
pool-paid expense of 10. -/
theorem claim_C4_legacy_split_witness :
    (allocStep w34members w4expense).map (fun m => m.expenseShare)
      = w34members.map (fun m =>
          jadd m.expenseShare (some (w4expense.amount.getD 0 / w34members.length))) :=
  (claim_C4_legacy_split w34members w4expense (Or.inl rfl) (by decide)).1
    (Or.inl rfl)

/-- C8: the admin (first member) survives every deletion path: a direct
delete of the member at index 0 answers Forbidden without touching the
stored data, and approving a deletion request resolving to index 0 leaves
the member list unchanged while still consuming the pending request. -/
theorem claim_C8_admin_protected (fresh : Nat → String) (data : TripData)
    (m0 : Member) (tl : List Member) (rid : String) (req : DeletionRequest)
    (hmem : data.members = m0 :: tl) :
    apiMembersDelete fresh data m0.id = .error .forbidden ∧
    (findFirst (fun r => r.id = rid) data.pendingDeletions = some req →
      req.memberId = m0.id →
      apiMembersDeleteApprove fresh data rid "approve"
        = .ok { data with pendingDeletions := removeFirst (fun r => r.id = rid) data.pendingDeletions }) := by
  constructor
  · unfold apiMembersDelete
    rw [hmem]
    simp [findIdxP]
  · intro hreq hmid
    unfold apiMembersDeleteApprove
    rw [hreq]
    simp [hmem, hmid, findIdxP]

/-- C8 witness: both protections evaluated on the concrete snapshot w8data,
whose pending deletion request r1 targets the admin. -/
theorem claim_C8_admin_protected_witness :
    apiMembersDelete fresh0 w8data w8adm.id = .error .forbidden ∧
    apiMembersDeleteApprove fresh0 w8data "r1" "approve"
      = .ok { w8data with pendingDeletions := removeFirst (fun r => r.id = "r1") w8data.pendingDeletions } :=
  ⟨(claim_C8_admin_protected fresh0 w8data w8adm [w8b] "r1" w8req rfl).1,
   (claim_C8_admin_protected fresh0 w8data w8adm [w8b] "r1" w8req rfl).2
     (by decide) rfl⟩

theorem findIdxP_spec {α : Type} {p : α → Prop} [DecidablePred p] (f : α → α) :
    ∀ (l : List α) (i : Nat), findIdxP p l = some i →
      ∃ x, l[i]? = some x ∧ p x ∧ findFirst p l = some x ∧
        (updateFirst p f l)[i]? = some (f x)
  | [], i, h => by simp [findIdxP] at h
  | a :: l, i, h => by
      by_cases hp : p a
      · rw [findIdxP, if_pos hp] at h
        obtain rfl : (0 : Nat) = i := Option.some.inj h
        exact ⟨a, by simp, hp, by rw [findFirst, if_pos hp],
          by rw [updateFirst, if_pos hp]; simp⟩
      · rw [findIdxP, if_neg hp] at h
        rw [Option.map_eq_some'] at h
        obtain ⟨j, hj, hji⟩ := h
        obtain ⟨x, h1, h2, h3, h4⟩ := findIdxP_spec f l j hj
        subst hji
        refine ⟨x, by simpa using h1, h2, by rw [findFirst, if_neg hp]; exact h3, ?_⟩
        rw [updateFirst, if_neg hp]
        simpa using h4

theorem forall₂_getElem?_right {α β : Type} {R : α → β → Prop} :
    ∀ {as : List α} {bs : List β} {i : Nat} {a : α},
      Forall₂ R as bs → as[i]? = some a → ∃ b, bs[i]? = some b ∧ R a b := by
  intro as bs i a h
  induction h generalizing i with
  | nil => intro h1; simp at h1
  | cons hab _ ih =>
      intro h1
      cases i with
      | zero =>
          simp at h1
          subst h1
          exact ⟨_, by simp, hab⟩
      | succ j =>
          simp at h1
          obtain ⟨b, hb, hr⟩ := ih h1
          exact ⟨b, by simpa using hb, hr⟩

/-- C10: the refund handler rejects exactly the requests with a non-numeric
or non-positive amount or an unknown member id; an accepted refund subtracts
the full amount from the member's actualContribution with no upper bound, so
refunding 25 against an actualContribution of 10 persists -15. -/
theorem claim_C10_refund_validation (fresh : Nat → String) (data : TripData)
    (mid : String) (a : JNum) :
    (isErr (apiMembersRefund fresh data mid a) = true ↔
      (findFirst (fun m => m.id = mid) data.members = none ∨
        a = none ∨ a.getD 0 ≤ 0)) ∧
    (∀ (q : ℚ) (i : Nat) (m0 : Member), a = some q → 0 < q →
      findIdxP (fun m => m.id = mid) data.members = some i →
      data.members[i]? = some m0 →
      ∃ d2 m2, apiMembersRefund fresh data mid a = .ok d2 ∧
        d2.members[i]? = some m2 ∧
        m2.actualContribution = some (m0.actualContribution.getD 0 - q)) ∧
    ((apiMembersRefund fresh0 w10data "a" (some 25)).toOption.map
        (fun d => d.members.map (fun m => m.actualContribution))
      = some [some (-15)] ∧ (-15 : ℚ) < 0) := by
  refine ⟨?_, ?_, ?_, by norm_num⟩
  · unfold apiMembersRefund
    cases hf : findFirst (fun m => m.id = mid) data.members with
    | none => simp [isErr]
    | some m =>
        cases a with
        | none => simp [isErr]
        | some q =>
            by_cases hq : q ≤ 0
            · simp [isErr, hq]
            · simp [isErr, hq]
  · intro q i m0 ha hq hidx hget
    subst ha
    have hspec := findIdxP_spec (fun m => { m with actualContribution := some (m.actualContribution.getD 0 - q) }) data.members i hidx
    obtain ⟨x, h1, h2, h3, h4⟩ := hspec
    rw [hget] at h1
    obtain rfl : m0 = x := Option.some.inj h1
    have hok : apiMembersRefund fresh data mid (some q)
        = .ok (recalculateState fresh { data with members := updateFirst (fun m => m.id = mid) (fun m => { m with actualContribution := some (m.actualContribution.getD 0 - q) }) data.members }) := by
      unfold apiMembersRefund
      rw [h3]
      simp [not_le.mpr hq]
    have hcore := rcore_recalc fresh { data with members := updateFirst (fun m => m.id = mid) (fun m => { m with actualContribution := some (m.actualContribution.getD 0 - q) }) data.members }
    obtain ⟨m2, hm2, hR⟩ := forall₂_getElem?_right hcore h4
    refine ⟨_, m2, hok, hm2, ?_⟩
    have hact := hR.2.2.2.2.2.1
    simpa using hact
  · simp [apiMembersRefund, w10data, w10m, findFirst, updateFirst,
      recalculateState, expectedShare, jdivNat, initStats, initStatOne,
      initShareOne, allocStep, splitSet, legacySplit, addShare, payPersonal,
      finalizeOne, jadd, jsub, jmax0, jround2, jround2q, jsRound, fresh0]
    refine ⟨_, rfl, ?_⟩
    norm_num [max_def]

/-- C10 witness: the rejection of a non-numeric amount and an accepted
refund of 5 on the concrete snapshot w10data. -/
theorem claim_C10_refund_validation_witness :
    isErr (apiMembersRefund fresh0 w10data "a" none) = true ∧
    (∃ d2 m2, apiMembersRefund fresh0 w10data "a" (some 5) = .ok d2 ∧
      d2.members[0]? = some m2 ∧
      m2.actualContribution = some (w10m.actualContribution.getD 0 - 5)) :=
  ⟨(claim_C10_refund_validation fresh0 w10data "a" none).1.mpr
      (Or.inr (Or.inl rfl)),
   (claim_C10_refund_validation fresh0 w10data "a" (some 5)).2.1 5 0 w10m rfl
      (by norm_num) (by decide) rfl⟩

theorem forall₂_swap {α β : Type} {R : α → β → Prop} :
    ∀ {as : List α} {bs : List β}, Forall₂ R as bs →
      Forall₂ (fun b a => R a b) bs as := by
  intro as bs h
  induction h with
  | nil => exact .nil
  | cons hab _ ih => exact .cons hab ih

theorem forall₂_and_right {α β : Type} {R : α → β → Prop} {P : β → Prop} :
    ∀ {as : List α} {bs : List β}, Forall₂ R as bs → (∀ b ∈ bs, P b) →
      Forall₂ (fun a b => R a b ∧ P b) as bs := by
  intro as bs h
  induction h with
  | nil => intro; exact .nil
  | cons hab _ ih =>
      intro hp
      exact .cons ⟨hab, hp _ (List.mem_cons_self _ _)⟩
        (ih fun b hb => hp b (List.mem_cons_of_mem _ hb))

theorem expectedShare_recalc (fresh : Nat → String) (data : TripData) :
    expectedShare (recalculateState fresh data) = expectedShare data := by
  have hb : (recalculateState fresh data).budget = data.budget := rfl
  unfold expectedShare
  rw [length_recalc, hb]

theorem emod_payPersonal {amt : ℚ} {a b : Member} (h : EquivMod a b) :
    EquivMod (payPersonal amt a) (payPersonal amt b) := by
  obtain ⟨h1, h2, h3, h4, h5, h6, h7, h8, h9, h10⟩ := h
  unfold payPersonal
  by_cases hcp : b.customPersonal = true <;> simp_all [EquivMod]

theorem emod_addShare {sh : ℚ} {a b : Member} (h : EquivMod a b) :
    EquivMod (addShare sh a) (addShare sh b) := by
  obtain ⟨h1, h2, h3, h4, h5, h6, h7, h8, h9, h10⟩ := h
  simp_all [EquivMod, addShare]

theorem emod_finalizeOne {a b : Member} (h : EquivMod a b) :
    finalizeOne a = finalizeOne b := by
  obtain ⟨h1, h2, h3, h4, h5, h6, h7, h8, h9, h10⟩ := h
  unfold finalizeOne
  by_cases hcb : b.customBalance = true <;> cases a <;> cases b <;> simp_all

theorem emod_initPair {v : JNum} {m0 m : Member}
    (hR : Rcore v m0 m) (hne : m0.id ≠ "") :
    ∀ f : String, EquivMod (initShareOne (initStatOne f v m))
      (initShareOne (initStatOne f v m0)) := by
  intro f
  obtain ⟨h1, h2, h3, h4, h5, h6, h7, h8, h9⟩ := hR
  have hmid : m.id = m0.id := h1 hne
  unfold initStatOne initShareOne EquivMod
  by_cases hce : m0.customExpected = true <;>
    by_cases hcp : m0.customPersonal = true <;>
      by_cases hcb : m0.customBalance = true <;>
        simp_all

theorem emod_allocStep (e : Expense) :
    ∀ (as bs : List Member), Forall₂ EquivMod as bs →
      Forall₂ EquivMod (allocStep as e) (allocStep bs e) := by
  intro as bs hab
  have hstep : ∀ (as1 bs1 : List Member), Forall₂ EquivMod as1 bs1 →
      Forall₂ EquivMod
        (if 0 < (splitSet (as1.map Member.id) e).length then
          (splitSet (as1.map Member.id) e).foldl
            (fun acc mid => updateFirst (fun m => m.id = mid)
              (addShare (e.amount.getD 0 / (splitSet (as1.map Member.id) e).length)) acc) as1
         else as1)
        (if 0 < (splitSet (bs1.map Member.id) e).length then
          (splitSet (bs1.map Member.id) e).foldl
            (fun acc mid => updateFirst (fun m => m.id = mid)
              (addShare (e.amount.getD 0 / (splitSet (bs1.map Member.id) e).length)) acc) bs1
         else bs1) := by
    intro as1 bs1 hab1
    have hidseq : as1.map Member.id = bs1.map Member.id :=
      forall₂_map_eq (fun a b h => h.1) hab1
    rw [hidseq]
    by_cases hc : 0 < (splitSet (bs1.map Member.id) e).length
    · rw [if_pos hc, if_pos hc]
      refine forall₂_foldl_both (fun mid as2 bs2 h2 => ?_) _ hab1
      exact forall₂_updateFirst_both (fun a b h => by rw [h.1])
        (fun a b h => emod_addShare h) h2
    · rw [if_neg hc, if_neg hc]
      exact hab1
  cases hpb : e.paidBy with
  | none =>
      have h0 := hstep as bs hab
      simpa only [allocStep, hpb] using h0
  | some p =>
      by_cases hp : p = "pool"
      · have h0 := hstep as bs hab
        simpa only [allocStep, hpb, hp, if_pos] using h0
      · have hab1 : Forall₂ EquivMod
            (updateFirst (fun m => m.id = p) (payPersonal (e.amount.getD 0)) as)
            (updateFirst (fun m => m.id = p) (payPersonal (e.amount.getD 0)) bs) :=
          forall₂_updateFirst_both (fun a b h => by rw [h.1])
            (fun a b h => emod_payPersonal h) hab
        have h0 := hstep _ _ hab1
        simpa only [allocStep, hpb, hp, if_neg, if_false] using h0

theorem recalc_eq_of_members (fresh : Nat → String) (d : TripData)
    (h : (d.expenses.foldl allocStep
        ((initStats fresh (expectedShare d) 0 d.members).map initShareOne)).map finalizeOne
      = d.members) :
    recalculateState fresh d = d := by
  unfold recalculateState
  dsimp only
  rw [h]

/-- C2: recalculateState is idempotent: on a snapshot whose members all carry
an id, applying it to its own output reproduces that output exactly, so no
field of any member changes on the second run. -/
theorem claim_C2_recompute_idempotent (fresh : Nat → String) (data : TripData)
    (hid : ∀ m ∈ data.members, m.id ≠ "") :
    recalculateState fresh (recalculateState fresh data)
      = recalculateState fresh data := by
  have hcore := rcore_recalc fresh data
  have hflip := forall₂_swap hcore
  have hpair := forall₂_and_right hflip hid
  have hinit : Forall₂ (fun x y => EquivMod (initShareOne x) (initShareOne y))
      (initStats fresh (expectedShare data) 0 (recalculateState fresh data).members)
      (initStats fresh (expectedShare data) 0 data.members) :=
    forall₂_initStats_both (fun j a b hR => emod_initPair hR.1 hR.2 (fresh j)) 0 hpair
  have hinit2 : Forall₂ EquivMod
      ((initStats fresh (expectedShare data) 0 (recalculateState fresh data).members).map initShareOne)
      ((initStats fresh (expectedShare data) 0 data.members).map initShareOne) :=
    @forall₂_map_both Member Member
      (fun x y => EquivMod (initShareOne x) (initShareOne y)) EquivMod
      initShareOne initShareOne (fun a b h => h) _ _ hinit
  have halloc := forall₂_foldl_both (fun e as bs h => emod_allocStep e as bs h)
    data.expenses hinit2
  have hfin := forall₂_map_both (fun a b h => emod_finalizeOne h) halloc
  have hmembers := forall₂_eq (fun a b h => h) hfin
  refine recalc_eq_of_members fresh (recalculateState fresh data) ?_
  rw [expectedShare_recalc]
  have hexp : (recalculateState fresh data).expenses = data.expenses := rfl
  rw [hexp]
  have hm : (recalculateState fresh data).members
      = (data.expenses.foldl allocStep
          ((initStats fresh (expectedShare data) 0 data.members).map initShareOne)).map finalizeOne := rfl
  rw [hm]
  exact hmembers

/-- C2 witness: idempotence evaluated on the concrete snapshot w1data. -/
theorem claim_C2_recompute_idempotent_witness :
    recalculateState fresh0 (recalculateState fresh0 w1data)
      = recalculateState fresh0 w1data :=
  claim_C2_recompute_idempotent fresh0 w1data (by decide)

end TripBudget
